import Mathlib

set_option maxRecDepth 100000

/-!
Verification of the STRF (Shortest-Remaining-Time-First) chunked, quantum-gated
multi-processor scheduling simulation (`streamlit_app.py`).

The whole simulation core lives in the `Run Simulation` branch of the script.
It is a single-threaded, deterministic state machine over exact input numbers;
we embed it shallowly with `ℚ` in place of Python floats (the code performs
only ring operations, `min`, comparisons and one `round(·, 1)`, all of which
are exact on the inputs used in the concrete scenarios below).

Embedding conventions:
* Jobs are indexed `0, 1, ...` in input order (job `i` is `J(i+1)` in the UI);
  CPUs are indexed `0, 1, ...` (`CPU(i+1)`).
* Python dicts keyed by job/CPU id become functions `Nat → _`; all iterations
  over dicts happen in insertion order, which is `List.range` order here.
* Python's stable `sorted`/`list.sort` with key `(remaining_time, arrival_time)`
  is embedded as `List.insertionSort` with the corresponding total preorder
  (a stable sort with the same preorder produces the identical list).
* The unbounded `while` loops are given explicit fuel: `chunksLoop` models the
  chunk-splitting loop one iteration per unit of fuel (returning `none` when
  the fuel is exhausted before the loop exits), and `runFor` iterates the
  simulation loop body a given number of times; once the loop would have
  exited, further iterations leave the state unchanged, so any sufficiently
  large fuel computes the final state.
* Ghost instrumentation (fields that merely record what happened, never read
  by the simulation itself): `dispatch_rounds` counts executions of the
  dispatch branch, `dispatch_times` records their instants (most recent
  first), `end_time_sets` records every assignment to `end_time`, and each
  queue-snapshot entry carries the exact remaining/arrival values (`rtG`,
  `arrG`) alongside the rounded value (`shown`) that the code stores.
-/

/-- The chunk-splitting loop (`streamlit_app.py` lines 31–38):
`while remaining > 0: chunk = min(chunk_unit, remaining); chunks.append(chunk);
remaining -= chunk`, with one unit of fuel per iteration.  `none` means the
loop did not terminate within `fuel` iterations. -/
def chunksLoop (cu : ℚ) : Nat → ℚ → Option (List ℚ)
  | 0, remaining => if 0 < remaining then none else some []
  | fuel + 1, remaining =>
      if 0 < remaining then
        (chunksLoop cu fuel (remaining - min cu remaining)).map
          (fun l => min cu remaining :: l)
      else some []

/-- Simulation configuration: the validated UI inputs (lines 9–19).
`jobs` lists `(arrival_time, burst_time)` in input order; `chunk_fuel` is the
fuel given to the chunk-splitting loop when the job table is built (any value
large enough for the loop to finish yields the loop's actual result). -/
structure Config where
  num_cpus : Nat
  chunk_unit : ℚ
  quantum_time : ℚ
  jobs : List (ℚ × ℚ)
  chunk_fuel : Nat
deriving DecidableEq

def Config.num_jobs (cfg : Config) : Nat := cfg.jobs.length

def Config.arrival (cfg : Config) (j : Nat) : ℚ := (cfg.jobs.getD j (0, 0)).1

def Config.burst (cfg : Config) (j : Nat) : ℚ := (cfg.jobs.getD j (0, 0)).2

/-- One entry of a queue snapshot (line 57): the job id and the value the code
stores, `round(remaining_time[job], 1)`.  `rtG` and `arrG` are ghost fields
recording the exact remaining and arrival time at capture (the key the sort
used); the code itself stores only `(job, shown)`. -/
structure SnapEntry where
  job : Nat
  shown : ℚ
  rtG : ℚ
  arrG : ℚ
deriving DecidableEq, Repr

/-- Floor of a rational as an integer (used only inside `round1`). -/
def qfloor (q : ℚ) : Int := Int.fdiv q.num q.den

/-- Python's `round(x, 1)`: round to one decimal place, ties to even
(banker's rounding), on exact rationals. -/
def round1 (q : ℚ) : ℚ :=
  let x : ℚ := 10 * q
  let n : Int := qfloor x
  let f : ℚ := x - n
  let r : Int :=
    if f < 1 / 2 then n
    else if 1 / 2 < f then n + 1
    else if n % 2 = 0 then n else n + 1
  (r : ℚ) / 10

/-- The full mutable state of the simulation loop (lines 22–132).
Dicts keyed by job/CPU id are functions from the index; `broke` records that
the `else: break` at line 131–132 was taken (after which the loop is gone);
`dispatch_rounds`, `dispatch_times` (most recent first) and `end_time_sets`
(in assignment order) are ghost instrumentation, never read by the code. -/
structure SimState where
  remaining_time : Nat → ℚ
  start_time : Nat → Option ℚ
  end_time : Nat → Option ℚ
  job_chunks : Nat → List ℚ
  busy_until : Nat → ℚ
  current_jobs : Nat → Option Nat
  busy_jobs : Nat → Bool
  gantt_data : List (ℚ × Nat × Nat × ℚ)
  queue_snapshots : List (ℚ × List SnapEntry)
  current_time : ℚ
  jobs_completed : Nat
  next_scheduling_time : ℚ
  broke : Bool
  dispatch_rounds : Nat
  dispatch_times : List ℚ
  end_time_sets : List (Nat × ℚ)

/-- The STRF order used by `sorted`/`sort` (lines 56, 88): key
`(remaining_time[job], arrival_time[job])` compared lexicographically. -/
def sortRel (cfg : Config) (s : SimState) (j k : Nat) : Prop :=
  s.remaining_time j < s.remaining_time k ∨
    (s.remaining_time j = s.remaining_time k ∧ cfg.arrival j ≤ cfg.arrival k)

instance sortRelDecidable (cfg : Config) (s : SimState) :
    DecidableRel (sortRel cfg s) := fun _ _ =>
  inferInstanceAs (Decidable (_ ∨ _))

/-- `capture_queue_state(time, available_jobs)` (lines 54–59): keep jobs with
positive remaining time, sort by `(remaining_time, arrival_time)`, record
`(job, round(remaining_time, 1))`; append only when non-empty (`none` means
nothing is appended). -/
def captureQueue (cfg : Config) (s : SimState) (t : ℚ) (avail : List Nat) :
    Option (ℚ × List SnapEntry) :=
  let active := avail.filter (fun j => decide (0 < s.remaining_time j))
  let queue := List.insertionSort (sortRel cfg s) active
  let job_info := queue.map
    (fun j => SnapEntry.mk j (round1 (s.remaining_time j)) (s.remaining_time j) (cfg.arrival j))
  if job_info.isEmpty then none else some (t, job_info)

/-- Release check for one CPU (lines 68–73): a CPU whose busy time has passed
drops its job from `busy_jobs` and clears `current_jobs`. -/
def releaseCpu (t : ℚ) (s : SimState) (c : Nat) : SimState :=
  match s.current_jobs c with
  | some j =>
      if s.busy_until c ≤ t then
        { s with busy_jobs := Function.update s.busy_jobs j false,
                 current_jobs := Function.update s.current_jobs c none }
      else s
  | none => s

def releaseAll (cfg : Config) (t : ℚ) (s : SimState) : SimState :=
  (List.range cfg.num_cpus).foldl (releaseCpu t) s

/-- One assignment inside the dispatch loop (lines 91–109): record the start
time on first dispatch, pop the next chunk, mark the job busy on the CPU,
decrease the remaining time, extend the Gantt data, and—when the remaining
time is within 0.001 of zero—record the completion time and count the job as
completed.  `job_chunks` is never empty here on runs from valid
configurations; the `[]` branch (chunk `0`) stands in for Python's
out-of-bounds `pop(0)` and is exercised by no claim. -/
def assignOne (t : ℚ) (c j : Nat) (s : SimState) : SimState :=
  let s1 := if (s.start_time j).isNone
    then { s with start_time := Function.update s.start_time j (some t) } else s
  let ch : ℚ := (s1.job_chunks j).headD 0
  let newRem : ℚ := s1.remaining_time j - ch
  let s2 := { s1 with
    job_chunks := Function.update s1.job_chunks j (s1.job_chunks j).tail,
    busy_jobs := Function.update s1.busy_jobs j true,
    current_jobs := Function.update s1.current_jobs c (some j),
    remaining_time := Function.update s1.remaining_time j newRem,
    busy_until := Function.update s1.busy_until c (t + ch),
    gantt_data := s1.gantt_data ++ [(t, c, j, ch)] }
  if |newRem| < 1 / 1000 then
    { s2 with
      end_time := Function.update s2.end_time j (some (t + ch)),
      end_time_sets := s2.end_time_sets ++ [(j, t + ch)],
      jobs_completed := s2.jobs_completed + 1 }
  else s2

/-- The dispatch loop (lines 91–109): one job per free CPU, in CPU order,
from the front of the sorted job list, stopping when either runs out. -/
def assignJobs (t : ℚ) : List Nat → List Nat → SimState → SimState
  | [], _, s => s
  | _ :: _, [], s => s
  | c :: cs, j :: js, s => assignJobs t cs js (assignOne t c j s)

/-- The candidate next event times (lines 115–125): completions (`busy_until`
in the future), future arrivals of jobs with remaining work, and the next
scheduling time if it is in the future. -/
def nextEvents (cfg : Config) (s : SimState) (t : ℚ) : List ℚ :=
  ((List.range cfg.num_cpus).filter (fun c => decide (t < s.busy_until c))).map s.busy_until
    ++ ((List.range cfg.num_jobs).filter
        (fun j => decide (t < cfg.arrival j) && decide (0 < s.remaining_time j))).map cfg.arrival
    ++ (if t < s.next_scheduling_time then [s.next_scheduling_time] else [])

/-- Python's `min` over a non-empty list. -/
def minQ : List ℚ → Option ℚ
  | [] => none
  | x :: xs => some (xs.foldl min x)

/-- `available_cpus` (line 79): CPUs past their busy time with no current
job. -/
def availCpusOf (cfg : Config) (t : ℚ) (s : SimState) : List Nat :=
  (List.range cfg.num_cpus).filter
    (fun c => decide (s.busy_until c ≤ t) && (s.current_jobs c).isNone)

/-- `available_jobs` (lines 80–81): arrived jobs with remaining work that are
not currently running. -/
def availJobsOf (cfg : Config) (t : ℚ) (s : SimState) : List Nat :=
  (List.range cfg.num_jobs).filter
    (fun j => decide (0 < s.remaining_time j) && decide (cfg.arrival j ≤ t)
      && !(s.busy_jobs j))

/-- The dispatch branch (lines 76–112): when the quantum gate is open
(`current_time >= next_scheduling_time`) and there are both free CPUs and
ready jobs, capture the queue snapshot, sort the ready jobs by STRF order,
assign them to the free CPUs, and push `next_scheduling_time` to
`current_time + quantum_time`. -/
def dispatchPhase (cfg : Config) (t : ℚ) (s1 : SimState) : SimState :=
  if s1.next_scheduling_time ≤ t ∧ availCpusOf cfg t s1 ≠ [] ∧ availJobsOf cfg t s1 ≠ [] then
    let s2a :=
      match captureQueue cfg s1 t (availJobsOf cfg t s1) with
      | some entry => { s1 with queue_snapshots := s1.queue_snapshots ++ [entry] }
      | none => s1
    let s2b := assignJobs t (availCpusOf cfg t s1)
      (List.insertionSort (sortRel cfg s1) (availJobsOf cfg t s1)) s2a
    { s2b with
      next_scheduling_time := t + cfg.quantum_time,
      dispatch_rounds := s2b.dispatch_rounds + 1,
      dispatch_times := t :: s2b.dispatch_times }
  else s1

/-- Time advance (lines 114–132): jump to the earliest next event, or take
the `break` when there is none. -/
def advancePhase (cfg : Config) (s2 : SimState) (t : ℚ) : SimState :=
  match minQ (nextEvents cfg s2 t) with
  | some m => { s2 with current_time := m }
  | none => { s2 with broke := true }

/-- One iteration of the simulation `while` loop (lines 66–132).  If the loop
guard `jobs_completed < len(processes)` fails, or the `break` was already
taken, the state is left unchanged (the loop is over). -/
def step (cfg : Config) (s : SimState) : SimState :=
  if s.broke then s
  else if s.jobs_completed < cfg.num_jobs then
    advancePhase cfg
      (dispatchPhase cfg s.current_time (releaseAll cfg s.current_time s))
      s.current_time
  else s

/-- The fresh state built at lines 22–51: full remaining times, chunk queues
from the chunk-splitting loop, idle CPUs, empty records, clock at 0. -/
def initBase (cfg : Config) : SimState :=
  { remaining_time := fun j => cfg.burst j
    start_time := fun _ => none
    end_time := fun _ => none
    job_chunks := fun j => (chunksLoop cfg.chunk_unit cfg.chunk_fuel (cfg.burst j)).getD []
    busy_until := fun _ => 0
    current_jobs := fun _ => none
    busy_jobs := fun _ => false
    gantt_data := []
    queue_snapshots := []
    current_time := 0
    jobs_completed := 0
    next_scheduling_time := 0
    broke := false
    dispatch_rounds := 0
    dispatch_times := []
    end_time_sets := [] }

/-- `initial_available_jobs` (line 62): jobs with `arrival_time ≤ 0` (the
initial `current_time`). -/
def initAvail (cfg : Config) : List Nat :=
  (List.range cfg.num_jobs).filter (fun j => decide (cfg.arrival j ≤ 0))

/-- The state just before the loop (lines 22–63): the fresh tables plus the
initial queue capture over jobs with `arrival_time ≤ 0`. -/
def initSim (cfg : Config) : SimState :=
  match captureQueue cfg (initBase cfg) 0 (initAvail cfg) with
  | some entry => { initBase cfg with queue_snapshots := [entry] }
  | none => initBase cfg

/-- Run the simulation loop for `fuel` iterations from the initial state. -/
def runFor (cfg : Config) : Nat → SimState
  | 0 => initSim cfg
  | n + 1 => step cfg (runFor cfg n)

/-- The results table (lines 135–140): per job
`(arrival, burst, start, end, turnaround = end - arrival)`.  `none` models the
`KeyError` the code raises when a job has no recorded start or end time. -/
def resultsOf (cfg : Config) (s : SimState) : Option (List (ℚ × ℚ × ℚ × ℚ × ℚ)) :=
  (List.range cfg.num_jobs).mapM (fun j =>
    match s.start_time j, s.end_time j with
    | some st, some en => some (cfg.arrival j, cfg.burst j, st, en, en - cfg.arrival j)
    | _, _ => none)

/-- The order a snapshot is claimed to be in: exact
`(remaining_time, arrival_time)` at capture, ascending lexicographically. -/
def entryLe (e1 e2 : SnapEntry) : Prop :=
  e1.rtG < e2.rtG ∨ (e1.rtG = e2.rtG ∧ e1.arrG ≤ e2.arrG)

instance entryLeDecidable : DecidableRel entryLe := fun _ _ =>
  inferInstanceAs (Decidable (_ ∨ _))

/-- Scenario A of the spec: 1 CPU, 1 job, arrival 0, burst 3, chunk 1,
quantum 1. -/
def cfgA : Config :=
  { num_cpus := 1, chunk_unit := 1, quantum_time := 1, jobs := [(0, 3)], chunk_fuel := 5 }

/-- Scenario for C1 as stated: 1 CPU, quantum 1; `J1(arrival 0, burst 1)`,
`J2(arrival 3, burst 1)`.  `J2` arrives with the CPU idle, 3 time units
(more than `quantum_time = 1`) after the only previous dispatch round at 0. -/
def cfgC1 : Config :=
  { num_cpus := 1, chunk_unit := 1, quantum_time := 1, jobs := [(0, 1), (3, 1)], chunk_fuel := 5 }

/-- Scenario for the amended C1: 1 CPU, quantum 2; `J1(arrival 0, burst 1)`,
`J2(arrival 1, burst 1)`.  `J2` arrives with the CPU idle at time 1, before
`next_scheduling_time = 2` set by the dispatch round at 0. -/
def cfgC1w : Config :=
  { num_cpus := 1, chunk_unit := 1, quantum_time := 2, jobs := [(0, 1), (1, 1)], chunk_fuel := 5 }

/-- Failing input for C9: 1 CPU, chunk 0.3, quantum 0.3;
`J1(arrival 0, burst 0.6005)`, `J2(arrival 0, burst 2)`.  `J1`'s second chunk
leaves remaining time 0.0005, inside the 0.001 completion tolerance but still
positive, so `J1` is counted complete yet stays eligible for dispatch. -/
def cfgC9 : Config :=
  { num_cpus := 1, chunk_unit := 3 / 10, quantum_time := 3 / 10,
    jobs := [(0, 6005 / 10000), (0, 2)], chunk_fuel := 10 }

/-- Scenario for C10: 1 CPU, chunk 0.25, quantum 0.25, one job of burst 0.75,
whose remaining times 0.75 and 0.25 round (half-to-even) to 0.8 and 0.2. -/
def cfgR : Config :=
  { num_cpus := 1, chunk_unit := 1 / 4, quantum_time := 1 / 4, jobs := [(0, 3 / 4)], chunk_fuel := 5 }

/-- 2 CPUs, two jobs arriving at 0 with bursts 2 and 4 (Scenario B shape),
used as a witness input for the mutual-exclusion invariant. -/
def cfgB : Config :=
  { num_cpus := 2, chunk_unit := 1, quantum_time := 1, jobs := [(0, 2), (0, 4)], chunk_fuel := 6 }

/-- No job is held by two processors: `current_jobs` is injective on its
`some` values. -/
def NoDoubleAssign (s : SimState) : Prop :=
  ∀ c1 c2 j, s.current_jobs c1 = some j → s.current_jobs c2 = some j → c1 = c2

/-- Every job held by a processor is marked busy (internal bookkeeping link
between `current_jobs` and `busy_jobs`). -/
def AssignedBusy (s : SimState) : Prop :=
  ∀ c j, s.current_jobs c = some j → s.busy_jobs j = true

theorem chunksLoop_of_nonpos (cu : ℚ) (fuel : Nat) (r : ℚ) (h : ¬ 0 < r) :
    chunksLoop cu fuel r = some [] := by
  cases fuel with
  | zero => simp [chunksLoop, h]
  | succ n => simp [chunksLoop, h]

/-- C4: the claimed up-front validation does not exist in the code — invalid
configurations are never rejected.  With `chunk_unit ≤ 0` and
`burst_time > 0` the chunk-splitting loop does not terminate, for any number
of iterations (`chunk = min(chunk_unit, remaining) ≤ 0` never decreases
`remaining`); with `burst_time ≤ 0` the loop exits immediately with an empty
chunk list and the program proceeds into the engine with the invalid job. -/
theorem c4_chunking_never_rejected :
    (∀ cu b : ℚ, cu ≤ 0 → 0 < b → ∀ fuel : Nat, chunksLoop cu fuel b = none) ∧
    (∀ cu b : ℚ, b ≤ 0 → ∀ fuel : Nat, chunksLoop cu fuel b = some []) := by
  constructor
  · intro cu b hcu hb fuel
    induction fuel generalizing b with
    | zero => simp [chunksLoop, hb]
    | succ n ih =>
        have hmin : min cu b ≤ 0 := le_trans (min_le_left _ _) hcu
        have hb2 : 0 < b - min cu b := by linarith
        simp only [chunksLoop, if_pos hb, ih _ hb2]
        rfl
  · intro cu b hb fuel
    exact chunksLoop_of_nonpos cu fuel b (not_lt.mpr hb)

theorem c4_chunking_never_rejected_witness :
    ((0 : ℚ) ≤ 0 ∧ (0 : ℚ) < 1 ∧ chunksLoop 0 7 1 = none) ∧
    ((-2 : ℚ) ≤ 0 ∧ chunksLoop 1 7 (-2) = some []) :=
  ⟨⟨le_refl 0, by norm_num, c4_chunking_never_rejected.1 0 1 (le_refl 0) (by norm_num) 7⟩,
    ⟨by norm_num, c4_chunking_never_rejected.2 1 (-2) (by norm_num) 7⟩⟩

/-- C8: for positive `burst_time` and `chunk_unit`, once the loop is given
enough fuel (`burst_time ≤ fuel * chunk_unit` iterations always suffice) it
terminates and returns a non-empty list of positive chunks, all equal to
`chunk_unit` except possibly the last, whose value is the remainder
`burst_time - chunk_unit * (length - 1)`; the chunks sum to `burst_time`
exactly (hence within the 1e-6 tolerance). -/
theorem c8_chunking_contract (cu b : ℚ) (fuel : Nat)
    (hcu : 0 < cu) (hb : 0 < b) (hfuel : b ≤ fuel * cu) :
    ∃ l : List ℚ, chunksLoop cu fuel b = some l ∧ l ≠ [] ∧
      (∀ x ∈ l, 0 < x) ∧ (∀ x ∈ l.dropLast, x = cu) ∧
      l.getLast? = some (b - cu * ((l.length - 1 : Nat) : ℚ)) ∧
      l.sum = b ∧ |l.sum - b| ≤ 1 / 1000000 := by
  induction fuel generalizing b with
  | zero =>
      exfalso
      have : (0 : ℚ) * cu = 0 := by ring
      rw [Nat.cast_zero] at hfuel
      linarith [hfuel, hb]
  | succ n ih =>
      by_cases hbc : b ≤ cu
      · have hmin : min cu b = b := min_eq_right hbc
        have hnext : chunksLoop cu n (b - min cu b) = some [] := by
          apply chunksLoop_of_nonpos
          rw [hmin]; simp
        refine ⟨[b], ?_, by simp, ?_, ?_, ?_, by simp, by simp⟩
        · rw [hmin] at hnext
          simp only [chunksLoop, if_pos hb, hmin, hnext]
          rfl
        · intro x hx; simp at hx; subst hx; exact hb
        · intro x hx; simp [List.dropLast] at hx
        · simp
      · push_neg at hbc
        have hmin : min cu b = cu := min_eq_left (le_of_lt hbc)
        have hb2 : 0 < b - cu := by linarith
        have hfuel2 : b - cu ≤ (n : ℚ) * cu := by
          rw [Nat.cast_succ] at hfuel
          have : ((n : ℚ) + 1) * cu = (n : ℚ) * cu + cu := by ring
          linarith [hfuel, this.symm.le]
        obtain ⟨l2, hl2, hne2, hpos2, hdl2, hlast2, hsum2, _⟩ := ih (b - cu) hb2 hfuel2
        obtain ⟨c2, t2, rfl⟩ := List.exists_cons_of_ne_nil hne2
        refine ⟨cu :: c2 :: t2, ?_, by simp, ?_, ?_, ?_, ?_, ?_⟩
        · simp only [chunksLoop, if_pos hb, hmin, hl2]
          rfl
        · intro x hx
          rcases List.mem_cons.mp hx with h | h
          · subst h; exact hcu
          · exact hpos2 x h
        · intro x hx
          rcases List.mem_cons.mp (by simpa [List.dropLast] using hx) with h | h
          · exact h.symm ▸ rfl
          · exact hdl2 x h
        · have h1 : (c2 :: t2).length = t2.length + 1 := by simp
          have hcast : (((c2 :: t2).length - 1 : Nat) : ℚ) = (t2.length : ℚ) := by
            rw [h1]; simp
          have hcast2 : (((cu :: c2 :: t2).length - 1 : Nat) : ℚ) = (t2.length : ℚ) + 1 := by
            simp
          rw [List.getLast?_cons_cons]
          rw [hlast2, hcast] at *
          rw [Option.some_inj]
          rw [hcast2]
          ring_nf
        · simp only [List.sum_cons] at hsum2 ⊢
          linarith [hsum2]
        · simp only [List.sum_cons] at hsum2 ⊢
          have : cu + (c2 + t2.sum) = b := by linarith [hsum2]
          rw [this]; simp

theorem c8_chunking_contract_witness :
    (0 : ℚ) < 1 ∧ (0 : ℚ) < 3 ∧ (3 : ℚ) ≤ (3 : Nat) * 1 ∧
    ∃ l : List ℚ, chunksLoop 1 3 3 = some l ∧ l ≠ [] ∧
      (∀ x ∈ l, 0 < x) ∧ (∀ x ∈ l.dropLast, x = 1) ∧
      l.getLast? = some (3 - 1 * ((l.length - 1 : Nat) : ℚ)) ∧
      l.sum = 3 ∧ |l.sum - 3| ≤ 1 / 1000000 :=
  ⟨by norm_num, by norm_num, by norm_num,
    c8_chunking_contract 1 3 3 (by norm_num) (by norm_num) (by norm_num)⟩

theorem sortRel_total (cfg : Config) (s : SimState) :
    ∀ j k, sortRel cfg s j k ∨ sortRel cfg s k j := by
  intro j k
  rcases lt_trichotomy (s.remaining_time j) (s.remaining_time k) with h | h | h
  · exact Or.inl (Or.inl h)
  · rcases le_total (cfg.arrival j) (cfg.arrival k) with h2 | h2
    · exact Or.inl (Or.inr ⟨h, h2⟩)
    · exact Or.inr (Or.inr ⟨h.symm, h2⟩)
  · exact Or.inr (Or.inl h)

theorem sortRel_trans (cfg : Config) (s : SimState) :
    ∀ i j k, sortRel cfg s i j → sortRel cfg s j k → sortRel cfg s i k := by
  intro i j k hij hjk
  rcases hij with h1 | ⟨h1, h1a⟩ <;> rcases hjk with h2 | ⟨h2, h2a⟩
  · exact Or.inl (lt_trans h1 h2)
  · exact Or.inl (h2 ▸ h1)
  · exact Or.inl (h1 ▸ h2)
  · exact Or.inr ⟨h1.trans h2, le_trans h1a h2a⟩

/-- C1 counterexample: on `cfgC1`, job `J2` (index 1) arrives at time 3 with
the CPU idle, more than `quantum_time = 1` after the last dispatch round
(time 0, as `dispatch_times` shows) — and it is dispatched at time 3, i.e.
immediately on arrival, contrary to the claim that it must wait.  Since
`next_scheduling_time` was 1, the arrival instant itself was already a legal
scheduling instant. -/
theorem c1_counterexample :
    (runFor cfgC1 6).gantt_data = [(0, 0, 0, 1), (3, 0, 1, 1)] ∧
    (runFor cfgC1 6).dispatch_times = [3, 0] ∧
    cfgC1.arrival 1 = 3 ∧ cfgC1.quantum_time = 1 ∧
    (runFor cfgC1 6).jobs_completed = 2 := by
  refine ⟨?_, ?_, ?_, ?_, ?_⟩ <;> with_unfolding_all decide

/-- C1 amended: the quantum gate delays a job that arrives *before*
`next_scheduling_time` (less than `quantum_time` after the last dispatch
round): while `current_time < next_scheduling_time` the whole dispatch branch
is a no-op, whatever jobs arrive and however many processors are idle.
Concretely, on `cfgC1w`, `J2` arrives at time 1 with the CPU idle after the
dispatch round at time 0 set `next_scheduling_time = 2`; it is dispatched at
time 2 — the next legal scheduling instant — not at its arrival instant 1. -/
theorem c1_quantum_gate_delays_early_arrival :
    (∀ cfg t s, t < s.next_scheduling_time → dispatchPhase cfg t s = s) ∧
    (runFor cfgC1w 6).gantt_data = [(0, 0, 0, 1), (2, 0, 1, 1)] ∧
    (runFor cfgC1w 6).dispatch_times = [2, 0] ∧
    cfgC1w.arrival 1 = 1 ∧ cfgC1w.quantum_time = 2 ∧
    (runFor cfgC1w 6).jobs_completed = 2 := by
  refine ⟨?_, ?_, ?_, ?_, ?_, ?_⟩
  · intro cfg t s h
    unfold dispatchPhase
    rw [if_neg]
    intro hcond
    exact absurd hcond.1 (not_le.mpr h)
  all_goals with_unfolding_all decide

theorem c1_quantum_gate_delays_early_arrival_witness :
    (0 : ℚ) < (runFor cfgA 1).next_scheduling_time ∧
    dispatchPhase cfgA 0 (runFor cfgA 1) = runFor cfgA 1 :=
  ⟨by with_unfolding_all decide,
    c1_quantum_gate_delays_early_arrival.1 cfgA 0 (runFor cfgA 1)
      (by with_unfolding_all decide)⟩

/-- C2 counterexample: on Scenario A (`cfgA`) the run performs 3 dispatch
rounds (each with a ready job) yet appends 4 snapshots: the pre-loop initial
capture at line 63 records the time-0 queue, and the first dispatch round at
time 0 records it again, so one decision point yields two snapshots. -/
theorem c2_counterexample :
    (runFor cfgA 6).queue_snapshots.length = 4 ∧
    (runFor cfgA 6).dispatch_rounds = 3 ∧
    (runFor cfgA 6).queue_snapshots.take 2 =
      [(0, [SnapEntry.mk 0 3 3 0]), (0, [SnapEntry.mk 0 3 3 0])] := by
  refine ⟨?_, ?_, ?_⟩ <;> with_unfolding_all decide

/-- C5: Scenario A — 1 processor, 1 job with arrival 0, burst 3, chunk 1,
quantum 1 — produces exactly the three execution records
`(start, cpu, job, duration)` = `(0,CPU1,J1,1), (1,CPU1,J1,1), (2,CPU1,J1,1)`
and the result row `(arrival, burst, start, end, turnaround) = (0,3,0,3,3)`,
i.e. turnaround 3. -/
theorem c5_scenario_a :
    (runFor cfgA 6).gantt_data = [(0, 0, 0, 1), (1, 0, 0, 1), (2, 0, 0, 1)] ∧
    resultsOf cfgA (runFor cfgA 6) = some [(0, 3, 0, 3, 3)] ∧
    (runFor cfgA 6).jobs_completed = 1 := by
  refine ⟨?_, ?_, ?_⟩ <;> with_unfolding_all decide

/-- C9 failing input evaluated: on `cfgC9`, job `J1`'s end time is assigned
twice — at 0.6 (when remaining hits 0.0005, inside the completion tolerance)
and again at 0.6005 (when the leftover chunk runs) — `jobs_completed` is
double-counted, the loop exits with `J2` never dispatched, and the results
table raises (modelled by `resultsOf = none`). -/
theorem c9_end_time_set_twice :
    (runFor cfgC9 6).end_time_sets = [(0, 3 / 5), (0, 1201 / 2000)] ∧
    (runFor cfgC9 6).start_time 1 = none ∧
    (runFor cfgC9 6).jobs_completed = 2 ∧
    resultsOf cfgC9 (runFor cfgC9 6) = none ∧
    cfgC9.burst 1 = 2 := by
  refine ⟨?_, ?_, ?_, ?_, ?_⟩ <;> with_unfolding_all decide

theorem foldl_proj {β γ : Type} (g : SimState → β → SimState) (proj : SimState → γ)
    (h : ∀ s x, proj (g s x) = proj s) :
    ∀ (l : List β) (s : SimState), proj (l.foldl g s) = proj s := by
  intro l
  induction l with
  | nil => intro s; rfl
  | cons x xs ih => intro s; rw [List.foldl_cons, ih, h]

theorem assignJobs_proj {γ : Type} (t : ℚ) (proj : SimState → γ)
    (h : ∀ s c j, proj (assignOne t c j s) = proj s) :
    ∀ (cs js : List Nat) (s : SimState), proj (assignJobs t cs js s) = proj s := by
  intro cs
  induction cs with
  | nil => intro js s; rfl
  | cons c cs ih =>
      intro js s
      cases js with
      | nil => rfl
      | cons j js => rw [assignJobs, ih, h]

theorem assignOne_queue_snapshots (t : ℚ) (c j : Nat) (s : SimState) :
    (assignOne t c j s).queue_snapshots = s.queue_snapshots := by
  unfold assignOne; dsimp only; split <;> split <;> rfl

theorem assignOne_dispatch_rounds (t : ℚ) (c j : Nat) (s : SimState) :
    (assignOne t c j s).dispatch_rounds = s.dispatch_rounds := by
  unfold assignOne; dsimp only; split <;> split <;> rfl

theorem assignOne_dispatch_times (t : ℚ) (c j : Nat) (s : SimState) :
    (assignOne t c j s).dispatch_times = s.dispatch_times := by
  unfold assignOne; dsimp only; split <;> split <;> rfl

theorem assignOne_next_scheduling_time (t : ℚ) (c j : Nat) (s : SimState) :
    (assignOne t c j s).next_scheduling_time = s.next_scheduling_time := by
  unfold assignOne; dsimp only; split <;> split <;> rfl

theorem releaseCpu_queue_snapshots (t : ℚ) (s : SimState) (c : Nat) :
    (releaseCpu t s c).queue_snapshots = s.queue_snapshots := by
  unfold releaseCpu
  cases s.current_jobs c with
  | none => rfl
  | some j => dsimp only; split <;> rfl

theorem releaseCpu_dispatch_rounds (t : ℚ) (s : SimState) (c : Nat) :
    (releaseCpu t s c).dispatch_rounds = s.dispatch_rounds := by
  unfold releaseCpu
  cases s.current_jobs c with
  | none => rfl
  | some j => dsimp only; split <;> rfl

theorem releaseCpu_dispatch_times (t : ℚ) (s : SimState) (c : Nat) :
    (releaseCpu t s c).dispatch_times = s.dispatch_times := by
  unfold releaseCpu
  cases s.current_jobs c with
  | none => rfl
  | some j => dsimp only; split <;> rfl

theorem releaseCpu_next_scheduling_time (t : ℚ) (s : SimState) (c : Nat) :
    (releaseCpu t s c).next_scheduling_time = s.next_scheduling_time := by
  unfold releaseCpu
  cases s.current_jobs c with
  | none => rfl
  | some j => dsimp only; split <;> rfl

theorem releaseAll_queue_snapshots (cfg : Config) (t : ℚ) (s : SimState) :
    (releaseAll cfg t s).queue_snapshots = s.queue_snapshots :=
  foldl_proj _ _ (releaseCpu_queue_snapshots t) _ s

theorem releaseAll_dispatch_rounds (cfg : Config) (t : ℚ) (s : SimState) :
    (releaseAll cfg t s).dispatch_rounds = s.dispatch_rounds :=
  foldl_proj _ _ (releaseCpu_dispatch_rounds t) _ s

theorem releaseAll_dispatch_times (cfg : Config) (t : ℚ) (s : SimState) :
    (releaseAll cfg t s).dispatch_times = s.dispatch_times :=
  foldl_proj _ _ (releaseCpu_dispatch_times t) _ s

theorem releaseAll_next_scheduling_time (cfg : Config) (t : ℚ) (s : SimState) :
    (releaseAll cfg t s).next_scheduling_time = s.next_scheduling_time :=
  foldl_proj _ _ (releaseCpu_next_scheduling_time t) _ s

theorem assignJobs_queue_snapshots (t : ℚ) (cs js : List Nat) (s : SimState) :
    (assignJobs t cs js s).queue_snapshots = s.queue_snapshots :=
  assignJobs_proj t _ (fun s c j => assignOne_queue_snapshots t c j s) cs js s

theorem assignJobs_dispatch_rounds (t : ℚ) (cs js : List Nat) (s : SimState) :
    (assignJobs t cs js s).dispatch_rounds = s.dispatch_rounds :=
  assignJobs_proj t _ (fun s c j => assignOne_dispatch_rounds t c j s) cs js s

theorem assignJobs_dispatch_times (t : ℚ) (cs js : List Nat) (s : SimState) :
    (assignJobs t cs js s).dispatch_times = s.dispatch_times :=
  assignJobs_proj t _ (fun s c j => assignOne_dispatch_times t c j s) cs js s

theorem assignJobs_next_scheduling_time (t : ℚ) (cs js : List Nat) (s : SimState) :
    (assignJobs t cs js s).next_scheduling_time = s.next_scheduling_time :=
  assignJobs_proj t _ (fun s c j => assignOne_next_scheduling_time t c j s) cs js s

theorem advancePhase_queue_snapshots (cfg : Config) (s : SimState) (t : ℚ) :
    (advancePhase cfg s t).queue_snapshots = s.queue_snapshots := by
  unfold advancePhase
  cases minQ (nextEvents cfg s t) <;> rfl

theorem captureQueue_shown (cfg : Config) (s : SimState) (t : ℚ) (avail : List Nat)
    (entry : ℚ × List SnapEntry) (h : captureQueue cfg s t avail = some entry) :
    ∀ e ∈ entry.2, e.shown = round1 e.rtG := by
  unfold captureQueue at h
  dsimp only at h
  split at h
  · exact absurd h (by simp)
  · cases h
    intro e he
    rcases List.mem_map.mp he with ⟨j, _, rfl⟩
    rfl

theorem snapOK_dispatchPhase (cfg : Config) (t : ℚ) (s : SimState)
    (h : ∀ snap ∈ s.queue_snapshots, ∀ e ∈ snap.2, e.shown = round1 e.rtG) :
    ∀ snap ∈ (dispatchPhase cfg t s).queue_snapshots, ∀ e ∈ snap.2,
      e.shown = round1 e.rtG := by
  unfold dispatchPhase
  split
  · dsimp only
    rw [assignJobs_queue_snapshots]
    cases hc : captureQueue cfg s t (availJobsOf cfg t s) with
    | none => exact h
    | some entry =>
        dsimp only
        intro snap hsnap
        rcases List.mem_append.mp hsnap with hold | hnew
        · exact h snap hold
        · rw [List.mem_singleton] at hnew
          subst hnew
          exact captureQueue_shown cfg s t _ snap hc
  · exact h

theorem snapOK_step (cfg : Config) (s : SimState)
    (h : ∀ snap ∈ s.queue_snapshots, ∀ e ∈ snap.2, e.shown = round1 e.rtG) :
    ∀ snap ∈ (step cfg s).queue_snapshots, ∀ e ∈ snap.2, e.shown = round1 e.rtG := by
  unfold step
  split
  · exact h
  · split
    · rw [advancePhase_queue_snapshots]
      apply snapOK_dispatchPhase
      rw [releaseAll_queue_snapshots]
      exact h
    · exact h

theorem snapOK_init (cfg : Config) :
    ∀ snap ∈ (initSim cfg).queue_snapshots, ∀ e ∈ snap.2, e.shown = round1 e.rtG := by
  unfold initSim
  dsimp only
  split
  · next entry hc =>
      intro snap hsnap
      rw [List.mem_singleton] at hsnap
      subst hsnap
      exact captureQueue_shown cfg _ 0 _ snap hc
  · intro snap hsnap
    simp [initBase] at hsnap

/-- C10: every queue snapshot a run ever records stores, for each job, the
job's exact remaining time at capture (`rtG`, the value the dispatch policy
sorted on) rounded to one decimal place — and rounding is not the identity
(`round1 (3/4) = 4/5 ≠ 3/4`), so the recorded value can differ from the
exact one. -/
theorem c10_snapshot_values_rounded (cfg : Config) (fuel : Nat) :
    (∀ snap ∈ (runFor cfg fuel).queue_snapshots, ∀ e ∈ snap.2,
      e.shown = round1 e.rtG) ∧ round1 (3 / 4) ≠ (3 / 4 : ℚ) := by
  constructor
  · induction fuel with
    | zero => exact snapOK_init cfg
    | succ n ih => exact snapOK_step cfg (runFor cfg n) ih
  · intro h
    have : round1 (3 / 4) = 4 / 5 := by with_unfolding_all decide
    rw [this] at h
    exact absurd h (by norm_num)

theorem c10_snapshot_values_rounded_witness :
    (0, [SnapEntry.mk 0 (4 / 5) (3 / 4) 0]) ∈ (runFor cfgR 4).queue_snapshots ∧
    SnapEntry.mk 0 (4 / 5) (3 / 4) 0 ∈ [SnapEntry.mk 0 (4 / 5) (3 / 4) 0] ∧
    (SnapEntry.mk 0 (4 / 5) (3 / 4) 0).shown =
      round1 (SnapEntry.mk 0 (4 / 5) (3 / 4) 0).rtG :=
  ⟨by with_unfolding_all decide, by simp,
    (c10_snapshot_values_rounded cfgR 4).1 (0, [SnapEntry.mk 0 (4 / 5) (3 / 4) 0])
      (by with_unfolding_all decide) (SnapEntry.mk 0 (4 / 5) (3 / 4) 0) (by simp)⟩

theorem advancePhase_dispatch_times (cfg : Config) (s : SimState) (t : ℚ) :
    (advancePhase cfg s t).dispatch_times = s.dispatch_times := by
  unfold advancePhase
  cases minQ (nextEvents cfg s t) <;> rfl

theorem advancePhase_dispatch_rounds (cfg : Config) (s : SimState) (t : ℚ) :
    (advancePhase cfg s t).dispatch_rounds = s.dispatch_rounds := by
  unfold advancePhase
  cases minQ (nextEvents cfg s t) <;> rfl

theorem advancePhase_next_scheduling_time (cfg : Config) (s : SimState) (t : ℚ) :
    (advancePhase cfg s t).next_scheduling_time = s.next_scheduling_time := by
  unfold advancePhase
  cases minQ (nextEvents cfg s t) <;> rfl

theorem capAppend_dispatch_times (cfg : Config) (s : SimState) (t : ℚ) (avail : List Nat) :
    (match captureQueue cfg s t avail with
      | some entry => { s with queue_snapshots := s.queue_snapshots ++ [entry] }
      | none => s).dispatch_times = s.dispatch_times := by
  cases captureQueue cfg s t avail <;> rfl

theorem capAppend_dispatch_rounds (cfg : Config) (s : SimState) (t : ℚ) (avail : List Nat) :
    (match captureQueue cfg s t avail with
      | some entry => { s with queue_snapshots := s.queue_snapshots ++ [entry] }
      | none => s).dispatch_rounds = s.dispatch_rounds := by
  cases captureQueue cfg s t avail <;> rfl

theorem capAppend_next_scheduling_time (cfg : Config) (s : SimState) (t : ℚ) (avail : List Nat) :
    (match captureQueue cfg s t avail with
      | some entry => { s with queue_snapshots := s.queue_snapshots ++ [entry] }
      | none => s).next_scheduling_time = s.next_scheduling_time := by
  cases captureQueue cfg s t avail <;> rfl

theorem dispatchPhase_nextSched_mono (cfg : Config) (t : ℚ) (s : SimState)
    (hq : 0 ≤ cfg.quantum_time) :
    s.next_scheduling_time ≤ (dispatchPhase cfg t s).next_scheduling_time := by
  unfold dispatchPhase
  split
  · next hcond =>
      dsimp only
      have h1 : s.next_scheduling_time ≤ t := hcond.1
      linarith
  · exact le_refl _

theorem step_nextSched_mono (cfg : Config) (s : SimState) (hq : 0 ≤ cfg.quantum_time) :
    s.next_scheduling_time ≤ (step cfg s).next_scheduling_time := by
  unfold step
  split
  · exact le_refl _
  · split
    · rw [advancePhase_next_scheduling_time]
      calc s.next_scheduling_time
          = (releaseAll cfg s.current_time s).next_scheduling_time :=
            (releaseAll_next_scheduling_time cfg s.current_time s).symm
        _ ≤ _ := dispatchPhase_nextSched_mono cfg s.current_time _ hq
    · exact le_refl _

theorem dispatchPhase_spacing (cfg : Config) (t : ℚ) (s : SimState)
    (h1 : List.Chain' (fun a b => b + cfg.quantum_time ≤ a) s.dispatch_times)
    (h2 : ∀ a, s.dispatch_times.head? = some a →
      a + cfg.quantum_time ≤ s.next_scheduling_time) :
    List.Chain' (fun a b => b + cfg.quantum_time ≤ a) (dispatchPhase cfg t s).dispatch_times ∧
    ∀ a, (dispatchPhase cfg t s).dispatch_times.head? = some a →
      a + cfg.quantum_time ≤ (dispatchPhase cfg t s).next_scheduling_time := by
  unfold dispatchPhase
  split
  · next hcond =>
      dsimp only
      rw [assignJobs_dispatch_times, capAppend_dispatch_times]
      constructor
      · rw [List.chain'_cons']
        refine ⟨?_, h1⟩
        intro b hb
        have := h2 b (by simpa using hb)
        have ht : s.next_scheduling_time ≤ t := hcond.1
        linarith
      · intro a ha
        simp only [List.head?_cons, Option.some_inj] at ha
        subst ha
        exact le_refl _
  · exact ⟨h1, h2⟩

theorem step_spacing (cfg : Config) (s : SimState)
    (h1 : List.Chain' (fun a b => b + cfg.quantum_time ≤ a) s.dispatch_times)
    (h2 : ∀ a, s.dispatch_times.head? = some a →
      a + cfg.quantum_time ≤ s.next_scheduling_time) :
    List.Chain' (fun a b => b + cfg.quantum_time ≤ a) (step cfg s).dispatch_times ∧
    ∀ a, (step cfg s).dispatch_times.head? = some a →
      a + cfg.quantum_time ≤ (step cfg s).next_scheduling_time := by
  unfold step
  split
  · exact ⟨h1, h2⟩
  · split
    · rw [advancePhase_dispatch_times, advancePhase_next_scheduling_time]
      apply dispatchPhase_spacing
      · rw [releaseAll_dispatch_times]; exact h1
      · rw [releaseAll_dispatch_times, releaseAll_next_scheduling_time]; exact h2
    · exact ⟨h1, h2⟩

theorem runFor_spacing (cfg : Config) (fuel : Nat) :
    List.Chain' (fun a b => b + cfg.quantum_time ≤ a) (runFor cfg fuel).dispatch_times ∧
    ∀ a, (runFor cfg fuel).dispatch_times.head? = some a →
      a + cfg.quantum_time ≤ (runFor cfg fuel).next_scheduling_time := by
  induction fuel with
  | zero =>
      have hdt : (runFor cfg 0).dispatch_times = [] := by
        show (initSim cfg).dispatch_times = []
        unfold initSim
        dsimp only
        split <;> rfl
      constructor
      · rw [hdt]
        exact List.chain'_nil
      · intro a ha
        rw [hdt] at ha
        simp at ha
  | succ n ih => exact step_spacing cfg (runFor cfg n) ih.1 ih.2

/-- C7: for a non-negative quantum (the spec requires a positive one),
`next_scheduling_time` never decreases from one loop iteration to the next,
and the recorded dispatch instants (`dispatch_times`, most recent first) are
spaced at least `quantum_time` apart: each earlier round's instant plus
`quantum_time` is at most the next round's instant. -/
theorem c7_quantum_spacing (cfg : Config) (fuel : Nat) (hq : 0 ≤ cfg.quantum_time) :
    (runFor cfg fuel).next_scheduling_time ≤ (runFor cfg (fuel + 1)).next_scheduling_time ∧
    List.Chain' (fun a b => b + cfg.quantum_time ≤ a) (runFor cfg fuel).dispatch_times :=
  ⟨step_nextSched_mono cfg (runFor cfg fuel) hq, (runFor_spacing cfg fuel).1⟩

theorem c7_quantum_spacing_witness :
    (0 : ℚ) ≤ cfgA.quantum_time ∧
    ((runFor cfgA 3).next_scheduling_time ≤ (runFor cfgA 4).next_scheduling_time ∧
      List.Chain' (fun a b => b + cfgA.quantum_time ≤ a) (runFor cfgA 3).dispatch_times) :=
  ⟨by norm_num [cfgA], c7_quantum_spacing cfgA 3 (by norm_num [cfgA])⟩

theorem captureQueue_sorted (cfg : Config) (s : SimState) (t : ℚ) (avail : List Nat)
    (entry : ℚ × List SnapEntry) (h : captureQueue cfg s t avail = some entry) :
    List.Pairwise entryLe entry.2 := by
  unfold captureQueue at h
  dsimp only at h
  split at h
  · exact absurd h (by simp)
  · cases h
    haveI : IsTotal Nat (sortRel cfg s) := ⟨sortRel_total cfg s⟩
    haveI : IsTrans Nat (sortRel cfg s) := ⟨sortRel_trans cfg s⟩
    have hs : List.Pairwise (sortRel cfg s) (List.insertionSort (sortRel cfg s)
        (avail.filter (fun j => decide (0 < s.remaining_time j)))) :=
      List.sorted_insertionSort (sortRel cfg s) _
    rw [List.pairwise_map]
    exact hs.imp (fun hr => hr)

theorem snapPred_dispatchPhase (Q : ℚ × List SnapEntry → Prop) (cfg : Config)
    (t : ℚ) (s : SimState)
    (hcap : ∀ s2 t2 avail entry, captureQueue cfg s2 t2 avail = some entry → Q entry)
    (h : ∀ snap ∈ s.queue_snapshots, Q snap) :
    ∀ snap ∈ (dispatchPhase cfg t s).queue_snapshots, Q snap := by
  unfold dispatchPhase
  split
  · dsimp only
    rw [assignJobs_queue_snapshots]
    cases hc : captureQueue cfg s t (availJobsOf cfg t s) with
    | none => exact h
    | some entry =>
        dsimp only
        intro snap hsnap
        rcases List.mem_append.mp hsnap with hold | hnew
        · exact h snap hold
        · rw [List.mem_singleton] at hnew
          subst hnew
          exact hcap s t _ snap hc
  · exact h

theorem snapPred_step (Q : ℚ × List SnapEntry → Prop) (cfg : Config) (s : SimState)
    (hcap : ∀ s2 t2 avail entry, captureQueue cfg s2 t2 avail = some entry → Q entry)
    (h : ∀ snap ∈ s.queue_snapshots, Q snap) :
    ∀ snap ∈ (step cfg s).queue_snapshots, Q snap := by
  unfold step
  split
  · exact h
  · split
    · rw [advancePhase_queue_snapshots]
      apply snapPred_dispatchPhase Q cfg _ _ hcap
      rw [releaseAll_queue_snapshots]
      exact h
    · exact h

theorem snapPred_runFor (Q : ℚ × List SnapEntry → Prop) (cfg : Config) (fuel : Nat)
    (hcap : ∀ s2 t2 avail entry, captureQueue cfg s2 t2 avail = some entry → Q entry) :
    ∀ snap ∈ (runFor cfg fuel).queue_snapshots, Q snap := by
  induction fuel with
  | zero =>
      show ∀ snap ∈ (initSim cfg).queue_snapshots, Q snap
      unfold initSim
      dsimp only
      split
      · next snap2 hc =>
          intro snap hsnap
          rw [List.mem_singleton] at hsnap
          subst hsnap
          exact hcap _ 0 _ snap hc
      · intro snap hsnap
        simp [initBase] at hsnap
  | succ n ih => exact snapPred_step Q cfg (runFor cfg n) hcap ih

theorem availJobsOf_pos (cfg : Config) (t : ℚ) (s : SimState) :
    ∀ j ∈ availJobsOf cfg t s, 0 < s.remaining_time j := by
  intro j hj
  unfold availJobsOf at hj
  rcases List.mem_filter.mp hj with ⟨_, hp⟩
  simp only [Bool.and_eq_true, decide_eq_true_eq] at hp
  exact hp.1.1

theorem captureQueue_isSome (cfg : Config) (t : ℚ) (s : SimState)
    (hne : availJobsOf cfg t s ≠ []) :
    ∃ entry, captureQueue cfg s t (availJobsOf cfg t s) = some entry := by
  unfold captureQueue
  dsimp only
  have hfil : (availJobsOf cfg t s).filter (fun j => decide (0 < s.remaining_time j))
      = availJobsOf cfg t s := by
    apply List.filter_eq_self.mpr
    intro j hj
    exact decide_eq_true (availJobsOf_pos cfg t s j hj)
  rw [hfil]
  split
  · next hempty =>
      exfalso
      rw [List.isEmpty_iff, List.map_eq_nil_iff] at hempty
      have hperm := List.perm_insertionSort (sortRel cfg s) (availJobsOf cfg t s)
      rw [hempty] at hperm
      exact hne (List.Perm.nil_eq hperm).symm
  · exact ⟨_, rfl⟩

theorem dispatchPhase_counts (cfg : Config) (t : ℚ) (s : SimState) :
    ((dispatchPhase cfg t s).queue_snapshots.length = s.queue_snapshots.length + 1 ∧
      (dispatchPhase cfg t s).dispatch_rounds = s.dispatch_rounds + 1) ∨
    dispatchPhase cfg t s = s := by
  unfold dispatchPhase
  split
  · next hcond =>
      left
      constructor
      · dsimp only
        rw [assignJobs_queue_snapshots]
        rcases captureQueue_isSome cfg t s hcond.2.2 with ⟨entry, he⟩
        rw [he]
        simp
      · dsimp only
        rw [assignJobs_dispatch_rounds, capAppend_dispatch_rounds]
  · right; rfl

theorem step_counts (cfg : Config) (s : SimState) (k : Nat)
    (h : s.queue_snapshots.length = s.dispatch_rounds + k) :
    (step cfg s).queue_snapshots.length = (step cfg s).dispatch_rounds + k := by
  unfold step
  split
  · exact h
  · split
    · rw [advancePhase_queue_snapshots, advancePhase_dispatch_rounds]
      rcases dispatchPhase_counts cfg s.current_time (releaseAll cfg s.current_time s)
        with ⟨hl, hr⟩ | heq
      · rw [hl, hr, releaseAll_queue_snapshots, releaseAll_dispatch_rounds, h]
        omega
      · rw [heq, releaseAll_queue_snapshots, releaseAll_dispatch_rounds]
        exact h
    · exact h

theorem captureQueue_none_iff (cfg : Config) (s : SimState) (t : ℚ) (avail : List Nat) :
    captureQueue cfg s t avail = none ↔ ∀ j ∈ avail, ¬ 0 < s.remaining_time j := by
  unfold captureQueue
  dsimp only
  split
  · next he =>
      rw [List.isEmpty_iff, List.map_eq_nil_iff] at he
      have hperm := List.perm_insertionSort (sortRel cfg s)
        (avail.filter (fun j => decide (0 < s.remaining_time j)))
      rw [he] at hperm
      have hnil : avail.filter (fun j => decide (0 < s.remaining_time j)) = [] :=
        (List.Perm.nil_eq hperm).symm
      constructor
      · intro _ j hj hpos
        have hmem : j ∈ avail.filter (fun j => decide (0 < s.remaining_time j)) :=
          List.mem_filter.mpr ⟨hj, decide_eq_true hpos⟩
        rw [hnil] at hmem
        cases hmem
      · intro _
        rfl
  · next he =>
      constructor
      · intro h
        cases h
      · intro hall
        exfalso
        apply he
        rw [List.isEmpty_iff, List.map_eq_nil_iff]
        have hnil : avail.filter (fun j => decide (0 < s.remaining_time j)) = [] := by
          rw [List.filter_eq_nil_iff]
          intro j hj
          simp only [decide_eq_true_eq]
          exact hall j hj
        rw [hnil]
        rfl

theorem initSim_snapshot_iff (cfg : Config) :
    (initSim cfg).queue_snapshots.length = 1 ↔
      ∃ j, j < cfg.num_jobs ∧ cfg.arrival j ≤ 0 ∧ 0 < cfg.burst j := by
  unfold initSim
  cases hc : captureQueue cfg (initBase cfg) 0 (initAvail cfg) with
  | some e =>
      dsimp only
      constructor
      · intro _
        have hne : ¬ ∀ j ∈ initAvail cfg, ¬ 0 < (initBase cfg).remaining_time j := by
          intro hall
          rw [← captureQueue_none_iff cfg (initBase cfg) 0 (initAvail cfg)] at hall
          rw [hc] at hall
          cases hall
        push_neg at hne
        rcases hne with ⟨j, hj, hpos⟩
        rcases List.mem_filter.mp hj with ⟨hjr, hjp⟩
        refine ⟨j, List.mem_range.mp hjr, ?_, hpos⟩
        simpa using hjp
      · intro _
        rfl
  | none =>
      dsimp only
      have hall := (captureQueue_none_iff cfg (initBase cfg) 0 (initAvail cfg)).mp hc
      constructor
      · intro h
        exact absurd h (by simp [initBase])
      · rintro ⟨j, hjn, hja, hjb⟩
        exfalso
        apply hall j
        · exact List.mem_filter.mpr ⟨List.mem_range.mpr hjn, decide_eq_true hja⟩
        · exact hjb

/-- C2 (amended): a queue snapshot is appended exactly once per dispatch
round (`dispatch_rounds` counts executions of the dispatch branch, each of
which has at least one ready job), plus the snapshots the pre-loop initial
capture recorded — at most one, present exactly when some job with positive
burst has `arrival_time ≤ 0`, and duplicating the time-0 round's snapshot
when a dispatch round also happens at time 0.  Every recorded snapshot is
sorted by exact `(remaining_time, arrival_time)` at capture, ascending. -/
theorem c2_snapshot_accounting (cfg : Config) (fuel : Nat) :
    (runFor cfg fuel).queue_snapshots.length =
      (runFor cfg fuel).dispatch_rounds + (initSim cfg).queue_snapshots.length ∧
    ((initSim cfg).queue_snapshots.length = 1 ↔
      ∃ j, j < cfg.num_jobs ∧ cfg.arrival j ≤ 0 ∧ 0 < cfg.burst j) ∧
    (initSim cfg).queue_snapshots.length ≤ 1 ∧
    ∀ snap ∈ (runFor cfg fuel).queue_snapshots, List.Pairwise entryLe snap.2 := by
  refine ⟨?_, initSim_snapshot_iff cfg, ?_, ?_⟩
  · induction fuel with
    | zero =>
        show (initSim cfg).queue_snapshots.length
          = (initSim cfg).dispatch_rounds + (initSim cfg).queue_snapshots.length
        have : (initSim cfg).dispatch_rounds = 0 := by
          unfold initSim
          dsimp only
          split <;> rfl
        omega
    | succ n ih => exact step_counts cfg (runFor cfg n) _ ih
  · unfold initSim
    dsimp only
    split <;> simp [initBase]
  · exact snapPred_runFor _ cfg fuel
      (fun s2 t2 avail entry he => captureQueue_sorted cfg s2 t2 avail entry he)

theorem c2_snapshot_accounting_witness :
    ((runFor cfgA 6).queue_snapshots.length =
      (runFor cfgA 6).dispatch_rounds + (initSim cfgA).queue_snapshots.length) ∧
    (initSim cfgA).queue_snapshots.length ≤ 1 ∧
    ((0 : ℚ), [SnapEntry.mk 0 3 3 0]) ∈ (runFor cfgA 6).queue_snapshots ∧
    List.Pairwise entryLe [SnapEntry.mk 0 3 3 0] :=
  ⟨(c2_snapshot_accounting cfgA 6).1, (c2_snapshot_accounting cfgA 6).2.2.1,
    by with_unfolding_all decide,
    (c2_snapshot_accounting cfgA 6).2.2.2 ((0 : ℚ), [SnapEntry.mk 0 3 3 0])
      (by with_unfolding_all decide)⟩

theorem foldl_pres {β : Type} (P : SimState → Prop) (g : SimState → β → SimState)
    (h : ∀ s x, P s → P (g s x)) :
    ∀ (l : List β) (s : SimState), P s → P (l.foldl g s) := by
  intro l
  induction l with
  | nil => intro s hs; exact hs
  | cons x xs ih => intro s hs; rw [List.foldl_cons]; exact ih _ (h s x hs)

theorem releaseCpu_inv (t : ℚ) (s : SimState) (c : Nat)
    (h : NoDoubleAssign s ∧ AssignedBusy s) :
    NoDoubleAssign (releaseCpu t s c) ∧ AssignedBusy (releaseCpu t s c) := by
  obtain ⟨hA, hB⟩ := h
  unfold releaseCpu
  cases hc : s.current_jobs c with
  | none => exact ⟨hA, hB⟩
  | some j0 =>
      dsimp only
      split
      · constructor
        · intro c1 c2 j h1 h2
          dsimp only at h1 h2
          by_cases e1 : c1 = c
          · rw [e1, Function.update_same] at h1; cases h1
          · by_cases e2 : c2 = c
            · rw [e2, Function.update_same] at h2; cases h2
            · rw [Function.update_noteq e1] at h1
              rw [Function.update_noteq e2] at h2
              exact hA c1 c2 j h1 h2
        · intro c' j h1
          dsimp only at h1 ⊢
          by_cases e1 : c' = c
          · rw [e1, Function.update_same] at h1; cases h1
          · rw [Function.update_noteq e1] at h1
            have hj : j ≠ j0 := by
              intro he
              subst he
              exact e1 (hA c' c j h1 hc)
            rw [Function.update_noteq hj]
            exact hB c' j h1
      · exact ⟨hA, hB⟩

theorem releaseAll_inv (cfg : Config) (t : ℚ) (s : SimState)
    (h : NoDoubleAssign s ∧ AssignedBusy s) :
    NoDoubleAssign (releaseAll cfg t s) ∧ AssignedBusy (releaseAll cfg t s) :=
  foldl_pres _ _ (fun s2 c h2 => releaseCpu_inv t s2 c h2) _ s h

theorem assignOne_busy_jobs (t : ℚ) (c j : Nat) (s : SimState) :
    (assignOne t c j s).busy_jobs = Function.update s.busy_jobs j true := by
  unfold assignOne; dsimp only; split <;> split <;> rfl

theorem assignOne_current_jobs (t : ℚ) (c j : Nat) (s : SimState) :
    (assignOne t c j s).current_jobs = Function.update s.current_jobs c (some j) := by
  unfold assignOne; dsimp only; split <;> split <;> rfl

theorem assignOne_inv (t : ℚ) (c j : Nat) (s : SimState)
    (hA : NoDoubleAssign s) (hB : AssignedBusy s) (hfree : s.busy_jobs j = false) :
    NoDoubleAssign (assignOne t c j s) ∧ AssignedBusy (assignOne t c j s) := by
  constructor
  · intro c1 c2 j0 h1 h2
    rw [assignOne_current_jobs] at h1 h2
    by_cases e1 : c1 = c <;> by_cases e2 : c2 = c
    · rw [e1, e2]
    · rw [e1, Function.update_same] at h1
      cases h1
      rw [Function.update_noteq e2] at h2
      have := hB c2 j h2
      rw [hfree] at this
      cases this
    · rw [e2, Function.update_same] at h2
      cases h2
      rw [Function.update_noteq e1] at h1
      have := hB c1 j h1
      rw [hfree] at this
      cases this
    · rw [Function.update_noteq e1] at h1
      rw [Function.update_noteq e2] at h2
      exact hA c1 c2 j0 h1 h2
  · intro c' j0 h1
    rw [assignOne_current_jobs] at h1
    rw [assignOne_busy_jobs]
    by_cases e1 : c' = c
    · rw [e1, Function.update_same] at h1
      cases h1
      rw [Function.update_same]
    · rw [Function.update_noteq e1] at h1
      by_cases ej : j0 = j
      · rw [ej, Function.update_same]
      · rw [Function.update_noteq ej]
        exact hB c' j0 h1

theorem assignJobs_inv (t : ℚ) :
    ∀ (cs js : List Nat) (s : SimState),
      NoDoubleAssign s → AssignedBusy s → js.Nodup →
      (∀ j ∈ js, s.busy_jobs j = false) →
      NoDoubleAssign (assignJobs t cs js s) ∧ AssignedBusy (assignJobs t cs js s) := by
  intro cs
  induction cs with
  | nil => intro js s hA hB _ _; exact ⟨hA, hB⟩
  | cons c cs ih =>
      intro js s hA hB hnd hfree
      cases js with
      | nil => exact ⟨hA, hB⟩
      | cons j js =>
          rw [assignJobs]
          rcases List.nodup_cons.mp hnd with ⟨hj, hnd2⟩
          have hfj : s.busy_jobs j = false := hfree j (List.mem_cons_self j js)
          obtain ⟨hA2, hB2⟩ := assignOne_inv t c j s hA hB hfj
          apply ih js _ hA2 hB2 hnd2
          intro k hk
          rw [assignOne_busy_jobs]
          have hkj : k ≠ j := fun he => hj (he ▸ hk)
          rw [Function.update_noteq hkj]
          exact hfree k (List.mem_cons_of_mem j hk)

theorem capAppend_current_jobs (cfg : Config) (s : SimState) (t : ℚ) (avail : List Nat) :
    (match captureQueue cfg s t avail with
      | some entry => { s with queue_snapshots := s.queue_snapshots ++ [entry] }
      | none => s).current_jobs = s.current_jobs := by
  cases captureQueue cfg s t avail <;> rfl

theorem capAppend_busy_jobs (cfg : Config) (s : SimState) (t : ℚ) (avail : List Nat) :
    (match captureQueue cfg s t avail with
      | some entry => { s with queue_snapshots := s.queue_snapshots ++ [entry] }
      | none => s).busy_jobs = s.busy_jobs := by
  cases captureQueue cfg s t avail <;> rfl

theorem availJobsOf_nodup (cfg : Config) (t : ℚ) (s : SimState) :
    (availJobsOf cfg t s).Nodup :=
  (List.nodup_range cfg.num_jobs).filter _

theorem availJobsOf_not_busy (cfg : Config) (t : ℚ) (s : SimState) :
    ∀ j ∈ availJobsOf cfg t s, s.busy_jobs j = false := by
  intro j hj
  unfold availJobsOf at hj
  rcases List.mem_filter.mp hj with ⟨_, hp⟩
  simp only [Bool.and_eq_true, Bool.not_eq_eq_eq_not, Bool.not_true] at hp
  exact hp.2

theorem dispatchPhase_inv (cfg : Config) (t : ℚ) (s : SimState)
    (h : NoDoubleAssign s ∧ AssignedBusy s) :
    NoDoubleAssign (dispatchPhase cfg t s) ∧ AssignedBusy (dispatchPhase cfg t s) := by
  obtain ⟨hA, hB⟩ := h
  unfold dispatchPhase
  split
  · dsimp only
    set s2a := (match captureQueue cfg s t (availJobsOf cfg t s) with
      | some entry => { s with queue_snapshots := s.queue_snapshots ++ [entry] }
      | none => s) with hs2a
    have hcj : s2a.current_jobs = s.current_jobs := capAppend_current_jobs cfg s t _
    have hbj : s2a.busy_jobs = s.busy_jobs := capAppend_busy_jobs cfg s t _
    have hA2 : NoDoubleAssign s2a := by
      intro c1 c2 j h1 h2
      rw [hcj] at h1 h2
      exact hA c1 c2 j h1 h2
    have hB2 : AssignedBusy s2a := by
      intro c j h1
      rw [hcj] at h1
      rw [hbj]
      exact hB c j h1
    have hnd : (List.insertionSort (sortRel cfg s) (availJobsOf cfg t s)).Nodup :=
      (List.perm_insertionSort (sortRel cfg s) (availJobsOf cfg t s)).nodup_iff.mpr
        (availJobsOf_nodup cfg t s)
    have hfree : ∀ j ∈ List.insertionSort (sortRel cfg s) (availJobsOf cfg t s),
        s2a.busy_jobs j = false := by
      intro j hjmem
      rw [hbj]
      exact availJobsOf_not_busy cfg t s j
        ((List.perm_insertionSort (sortRel cfg s) (availJobsOf cfg t s)).mem_iff.mp hjmem)
    obtain ⟨hA3, hB3⟩ := assignJobs_inv t (availCpusOf cfg t s) _ s2a hA2 hB2 hnd hfree
    exact ⟨fun c1 c2 j h1 h2 => hA3 c1 c2 j h1 h2, fun c j h1 => hB3 c j h1⟩
  · exact ⟨hA, hB⟩

theorem advancePhase_inv (cfg : Config) (s : SimState) (t : ℚ)
    (h : NoDoubleAssign s ∧ AssignedBusy s) :
    NoDoubleAssign (advancePhase cfg s t) ∧ AssignedBusy (advancePhase cfg s t) := by
  obtain ⟨hA, hB⟩ := h
  unfold advancePhase
  cases minQ (nextEvents cfg s t) with
  | none => exact ⟨fun c1 c2 j h1 h2 => hA c1 c2 j h1 h2, fun c j h1 => hB c j h1⟩
  | some m => exact ⟨fun c1 c2 j h1 h2 => hA c1 c2 j h1 h2, fun c j h1 => hB c j h1⟩

theorem step_inv (cfg : Config) (s : SimState)
    (h : NoDoubleAssign s ∧ AssignedBusy s) :
    NoDoubleAssign (step cfg s) ∧ AssignedBusy (step cfg s) := by
  unfold step
  split
  · exact h
  · split
    · exact advancePhase_inv cfg _ _
        (dispatchPhase_inv cfg _ _ (releaseAll_inv cfg _ _ h))
    · exact h

theorem initSim_current_jobs (cfg : Config) :
    (initSim cfg).current_jobs = fun _ => none := by
  unfold initSim
  dsimp only
  split <;> rfl

theorem runFor_inv (cfg : Config) (fuel : Nat) :
    NoDoubleAssign (runFor cfg fuel) ∧ AssignedBusy (runFor cfg fuel) := by
  induction fuel with
  | zero =>
      constructor
      · intro c1 c2 j h1 h2
        rw [show (runFor cfg 0).current_jobs = fun _ => none from initSim_current_jobs cfg]
          at h1
        cases h1
      · intro c j h1
        rw [show (runFor cfg 0).current_jobs = fun _ => none from initSim_current_jobs cfg]
          at h1
        cases h1
  | succ n ih => exact step_inv cfg (runFor cfg n) ih

/-- C6: mutual exclusion — at every iteration of every run, no job is held
by two processors: if processors `c1` and `c2` both hold job `j`, they are
the same processor.  (A processor holds at most one job by construction:
`current_jobs` maps each processor to at most one job id, mirroring the
single-valued `current_jobs` dict of the code.) -/
theorem c6_mutual_exclusion (cfg : Config) (fuel : Nat) (c1 c2 j : Nat)
    (h1 : (runFor cfg fuel).current_jobs c1 = some j)
    (h2 : (runFor cfg fuel).current_jobs c2 = some j) : c1 = c2 :=
  (runFor_inv cfg fuel).1 c1 c2 j h1 h2

theorem c6_mutual_exclusion_witness :
    (runFor cfgB 1).current_jobs 0 = some 0 ∧ (0 : Nat) = 0 :=
  ⟨by with_unfolding_all decide,
    c6_mutual_exclusion cfgB 1 0 0 0 (by with_unfolding_all decide)
      (by with_unfolding_all decide)⟩
